import Mathlib

/-!
Shallow embedding of the YATE terminal text editor (src/src/editor.c,
src/src/syntax.c) and proofs about its row/buffer model, coordinate
mapper, incremental syntax highlighter, search engine and quit logic.

Bytes are modelled as `Nat`; C strings are `List Nat` without their
terminating NUL (out-of-range reads yield the NUL byte 0 via `byteAt`,
matching reads of the terminator).  A `Row` mirrors `editor_row_t`:
`chars`/`size` become a byte list, `render`/`renderSize` a byte list,
`highLight` a list of highlight classes, `hightLightOpenComment` a Bool.
The row's `index` field is not stored: the editor keeps it equal to the
row's position in the buffer, and the embedding indexes rows by position.
-/

namespace Yate

/-- A byte of text, 0..255 (C `char` viewed through ASCII). -/
abbrev Byte := Nat

/-- Bytes of an ASCII string literal. -/
def bytes (s : String) : List Byte :=
  s.data.map Char.toNat

/-- The highlight classes of `enum editorHighlight` in syntax.h. -/
inductive Highlight where
  | normal
  | comment
  | mlcomment
  | kw1
  | kw2
  | kw3
  | kw4
  | hstring
  | number
  | searchMatch
deriving DecidableEq

/-- `editor_row_t`: raw bytes, derived render bytes, derived highlight
classes and the trailing open-multiline-comment flag. -/
structure Row where
  chars : List Byte
  render : List Byte
  highLight : List Highlight
  openComment : Bool
deriving DecidableEq

instance : Inhabited Row := ⟨⟨[], [], [], false⟩⟩

/-- Reading byte `i` of a NUL-terminated C string: positions past the end
give the terminator 0. -/
def byteAt (s : List Byte) (i : Nat) : Byte :=
  s.getD i 0

/-- `strncmp(&s[i], p, p.length) == 0` for a pattern `p` that contains no
NUL byte: the `p.length` bytes of `s` starting at `i` equal `p`. -/
def matchAt (s : List Byte) (i : Nat) (p : List Byte) : Bool :=
  decide ((s.drop i).take p.length = p)

/-- `editor_is_separator`: whitespace, NUL, or one of the separator
punctuation bytes (comma, dot, parens, arithmetic signs, tilde, percent,
angle and square brackets, semicolon). -/
def editor_is_separator (c : Byte) : Bool :=
  decide (c = 32 ∨ (9 ≤ c ∧ c ≤ 13) ∨ c = 0 ∨
    c ∈ [44, 46, 40, 41, 43, 45, 47, 42, 61, 126, 37, 60, 62, 91, 93, 59])

/-- `isdigit` on an ASCII byte. -/
def isDigitByte (c : Byte) : Bool :=
  decide (48 ≤ c ∧ c ≤ 57)

/-! ## Coordinate mapper (editor.c lines 1104-1115 and 1150-1163) -/

/-- One step of the rendered-width accumulation shared by
`editor_row_cx_to_rx` and `editor_row_rx_to_cx`: a tab advances to the
next multiple of the tab stop `T`, any other byte advances by one. -/
def rxStep (T : Nat) (rx c : Nat) : Nat :=
  if c = 9 then rx + ((T - 1) - rx % T) + 1 else rx + 1

/-- `editor_row_cx_to_rx`: rendered column of raw column `cx`, obtained by
walking `chars[0..cx)` with the tab rule. -/
def editor_row_cx_to_rx (T : Nat) (chars : List Byte) (cx : Nat) : Nat :=
  (chars.take cx).foldl (rxStep T) 0

/-- Loop body of `editor_row_rx_to_cx`: walk the raw bytes accumulating the
rendered width `curRx`; return the current raw index as soon as the
accumulated width exceeds `rx`, else the row size. -/
def rxToCxGo (T rx : Nat) : List Byte → Nat → Nat → Nat
  | [], _, cx => cx
  | c :: rest, curRx, cx =>
    let curRx' := rxStep T curRx c
    if rx < curRx' then cx else rxToCxGo T rx rest curRx' (cx + 1)

/-- `editor_row_rx_to_cx`: raw column for rendered column `rx`. -/
def editor_row_rx_to_cx (T : Nat) (chars : List Byte) (rx : Nat) : Nat :=
  rxToCxGo T rx chars 0 0

/-! ## Saving (editor.c lines 1168-1185) -/

/-- `editor_rows_to_string`: each row's raw bytes followed by one LF, in
row order. -/
def editor_rows_to_string : List Row → List Byte
  | [] => []
  | r :: rest => r.chars ++ 10 :: editor_rows_to_string rest

/-! ## Lemmas for the coordinate round trip -/

theorem rxStep_lt (T rx c : Nat) : rx < rxStep T rx c := by
  unfold rxStep
  split <;> omega

theorem le_foldl_rxStep (T : Nat) (l : List Byte) :
    ∀ rx : Nat, rx ≤ l.foldl (rxStep T) rx := by
  induction l with
  | nil => intro rx; exact Nat.le_refl rx
  | cons c rest ih =>
    intro rx
    calc rx ≤ rxStep T rx c := Nat.le_of_lt (rxStep_lt T rx c)
    _ ≤ rest.foldl (rxStep T) (rxStep T rx c) := ih _

theorem rxToCxGo_foldl (T : Nat) (l : List Byte) :
    ∀ (k curRx cx0 : Nat), k ≤ l.length →
      rxToCxGo T ((l.take k).foldl (rxStep T) curRx) l curRx cx0 = cx0 + k := by
  induction l with
  | nil =>
    intro k curRx cx0 hk
    have hk0 : k = 0 := Nat.le_zero.mp hk
    subst hk0
    simp [rxToCxGo]
  | cons c rest ih =>
    intro k curRx cx0 hk
    cases k with
    | zero =>
      simp only [List.take_zero, List.foldl_nil, rxToCxGo]
      rw [if_pos (rxStep_lt T curRx c)]
      omega
    | succ k =>
      simp only [List.take_succ_cons, List.foldl_cons, rxToCxGo]
      rw [if_neg (Nat.not_lt.mpr (le_foldl_rxStep T (rest.take k) (rxStep T curRx c)))]
      have hk' : k ≤ rest.length := Nat.le_of_succ_le_succ (by simpa using hk)
      rw [ih k (rxStep T curRx c) (cx0 + 1) hk']
      omega

/-! ## Syntax highlighting (syntax.c, editor.c lines 1326-1463) -/

/-- `editor_syntax_t`, restricted to the fields the highlighter reads:
keyword table (with the `|`, `&`, `~` group-suffix convention), the three
comment markers and the flag word.  `filetype`/`filematch` drive only rule
selection and are omitted. -/
structure SynRule where
  keywords : List (List Byte)
  slcs : List Byte
  mlcs : List Byte
  mlce : List Byte
  flags : Nat
deriving DecidableEq

/-- The C keyword table `CKeywords` from syntax.c. -/
def cKeywords : List (List Byte) :=
  [bytes "switch", bytes "if", bytes "while", bytes "for", bytes "break",
   bytes "continue", bytes "return", bytes "else", bytes "struct",
   bytes "union", bytes "typedef", bytes "static", bytes "enum",
   bytes "case", bytes "int|", bytes "long|", bytes "double|",
   bytes "float|", bytes "char|", bytes "unsigned|", bytes "signed|",
   bytes "void|"]

/-- The C entry of `HighLightDataBase`: line comments `//`, block comments
delimited by the slash-star and star-slash markers, numbers and strings
highlighted. -/
def cRule : SynRule :=
  { keywords := cKeywords
    slcs := bytes "//"
    mlcs := [47, 42]
    mlce := [42, 47]
    flags := 3 }

/-- The keyword loop of `editor_update_syntax`: find the first keyword of
the table that matches at position `i` of `render` and is followed by a
separator byte; strip a trailing `|`, `&` or `~` and report the matched
length together with the keyword group it selects. -/
def keywordHit (render : List Byte) (i : Nat) : List (List Byte) → Option (Nat × Highlight)
  | [] => none
  | kw :: rest =>
    let last := kw.getLastD 0
    let g2 := last = 124
    let g3 := last = 38
    let g4 := last = 126
    let klen := if g2 ∨ g3 ∨ g4 then kw.length - 1 else kw.length
    if matchAt render i (kw.take klen) = true ∧
        editor_is_separator (byteAt render (i + klen)) = true then
      some (klen, if g2 then Highlight.kw2 else if g3 then Highlight.kw3
        else if g4 then Highlight.kw4 else Highlight.kw1)
    else keywordHit render i rest

/-- The scanning loop of `editor_update_syntax` for a row with an active
rule.  `acc` holds the finalized classes of positions `[0, i)` (every
write of the C loop is at a position at or after `i`, and positions the
loop never writes keep the `normal` class of the initial `memset`).
`insideString` is a C `bool`, so storing a quote byte in it stores `true`
and the close test `c == insideString` compares `c` with 1; the embedding
reproduces this.  `fuel` bounds the number of iterations; callers pass
`render.length`, enough whenever every iteration advances (all YATE rules
have non-empty markers and keywords). -/
def hlScan (s : SynRule) (render : List Byte) :
    Nat → Nat → Bool → Bool → Bool → List Highlight → List Highlight × Bool
  | 0, i, _, _, insideComment, acc =>
    (acc ++ List.replicate (render.length - i) Highlight.normal, insideComment)
  | fuel + 1, i, prevSep, insideString, insideComment, acc =>
    if i < render.length then
      let c := byteAt render i
      let prevHl := acc.getLastD Highlight.normal
      if s.slcs.length ≠ 0 ∧ insideString = false ∧ insideComment = false ∧
          matchAt render i s.slcs = true then
        (acc ++ List.replicate (render.length - i) Highlight.comment, insideComment)
      else if s.mlcs.length ≠ 0 ∧ s.mlce.length ≠ 0 ∧ insideString = false ∧
          insideComment = true then
        if matchAt render i s.mlce = true then
          hlScan s render fuel (i + s.mlce.length) true insideString false
            (acc ++ List.replicate s.mlce.length Highlight.mlcomment)
        else
          hlScan s render fuel (i + 1) prevSep insideString insideComment
            (acc ++ [Highlight.mlcomment])
      else if s.mlcs.length ≠ 0 ∧ s.mlce.length ≠ 0 ∧ insideString = false ∧
          insideComment = false ∧ matchAt render i s.mlcs = true then
        hlScan s render fuel (i + s.mlcs.length) prevSep insideString true
          (acc ++ List.replicate s.mlcs.length Highlight.mlcomment)
      else if s.flags &&& 2 ≠ 0 ∧ insideString = true then
        if c = 92 ∧ i + 1 < render.length then
          hlScan s render fuel (i + 2) prevSep insideString insideComment
            (acc ++ [Highlight.hstring, Highlight.hstring])
        else
          hlScan s render fuel (i + 1) true
            (if c = 1 then false else insideString) insideComment
            (acc ++ [Highlight.hstring])
      else if s.flags &&& 2 ≠ 0 ∧ insideString = false ∧ (c = 34 ∨ c = 39) then
        hlScan s render fuel (i + 1) prevSep true insideComment
          (acc ++ [Highlight.hstring])
      else if s.flags &&& 1 ≠ 0 ∧
          ((isDigitByte c = true ∧ (prevSep = true ∨ prevHl = Highlight.number)) ∨
            (c = 46 ∧ prevHl = Highlight.number)) then
        hlScan s render fuel (i + 1) false insideString insideComment
          (acc ++ [Highlight.number])
      else
        match (if prevSep then keywordHit render i s.keywords else none) with
        | some kh =>
          hlScan s render fuel (i + kh.1) false insideString insideComment
            (acc ++ List.replicate kh.1 kh.2)
        | none =>
          hlScan s render fuel (i + 1) (editor_is_separator c) insideString insideComment
            (acc ++ [Highlight.normal])
    else (acc, insideComment)

/-- `editor_update_syntax` on one row, as a function of the render bytes,
the incoming open-comment state and (for the rule-less early return, which
leaves the row's flag untouched) the row's previous open-comment value.
Returns the filled highlight array and the row's new open-comment flag.
With no rule the function only `memset`s the array to `normal` and
returns, so the flag keeps `oldOC`. -/
def updateSyntaxRow (syn : Option SynRule) (render : List Byte)
    (incoming oldOC : Bool) : List Highlight × Bool :=
  match syn with
  | none => (List.replicate render.length Highlight.normal, oldOC)
  | some s => hlScan s render render.length 0 true false incoming []

/-- The incoming open-comment state of row `i`:
`row->index > 0 && editorRows[row->index - 1].hightLightOpenComment`. -/
def incomingOC (rows : List Row) (i : Nat) : Bool :=
  if i = 0 then false else (rows.getD (i - 1) default).openComment

/-- Recursion of `editor_update_syntax` through the buffer: update row `i`
and, exactly when its open-comment flag changed and `i + 1 < bound`
(`bound` is `numberOfRows` at call time), recurse into row `i + 1`.
`fuel` makes the recursion structural; `updateSyntaxBuf` supplies
`bound - i + 1`, the exact number of rows the cascade can visit. -/
def updateSyntaxGo (syn : Option SynRule) (bound : Nat) :
    Nat → List Row → Nat → List Row
  | 0, rows, _ => rows
  | fuel + 1, rows, i =>
    match rows.get? i with
    | none => rows
    | some row =>
      let p := updateSyntaxRow syn row.render (incomingOC rows i) row.openComment
      let rows' := rows.set i { row with highLight := p.1, openComment := p.2 }
      if p.2 ≠ row.openComment ∧ i + 1 < bound then
        updateSyntaxGo syn bound fuel rows' (i + 1)
      else rows'

/-- `editor_update_syntax` applied to row `i` of the buffer, cascading
into later rows while the open-comment flag keeps changing. -/
def updateSyntaxBuf (syn : Option SynRule) (bound : Nat) (rows : List Row) (i : Nat) :
    List Row :=
  updateSyntaxGo syn bound ((bound - i) + 1) rows i

/-! ## Row update pipeline (editor.c lines 1120-1144 and 1295-1322) -/

/-- Spaces a tab inserts after its first space: advance to the next
multiple of the tab stop `T` (the `while (idx % T != 0)` loop). -/
def tabPad (T len : Nat) : Nat :=
  if len % T = 0 then 0 else T - len % T

/-- The render-buffer construction of `editor_update_row`: copy each raw
byte, expanding a tab into one space plus spaces up to the next tab stop
boundary. -/
def renderChars (T : Nat) (chars : List Byte) : List Byte :=
  chars.foldl
    (fun acc c =>
      if c = 9 then acc ++ List.replicate (1 + tabPad T (acc.length + 1)) 32
      else acc ++ [c])
    []

/-- `editor_update_row` on one row: rebuild `render` from `chars`, then
re-run `editor_update_syntax` on it.  `incoming` is the open-comment state
carried from the previous row (false for row 0); the cascade the C
function may trigger touches only later rows, never this one, and is
modelled separately by `updateSyntaxBuf`. -/
def editor_update_row (T : Nat) (syn : Option SynRule) (incoming : Bool) (row : Row) : Row :=
  let render := renderChars T row.chars
  let p := updateSyntaxRow syn render incoming row.openComment
  { row with render := render, highLight := p.1, openComment := p.2 }

/-- `editor_row_insert_character`: clamp the insertion index to the row
size, splice the byte into `chars`, and re-derive the row. -/
def editor_row_insert_character (T : Nat) (syn : Option SynRule) (incoming : Bool)
    (row : Row) (at_ c : Nat) : Row :=
  let a := if at_ > row.chars.length then row.chars.length else at_
  editor_update_row T syn incoming { row with chars := row.chars.take a ++ c :: row.chars.drop a }

/-- `editor_row_delete_character`: no-op when the index is out of range,
otherwise remove the byte from `chars` and re-derive the row. -/
def editor_row_delete_character (T : Nat) (syn : Option SynRule) (incoming : Bool)
    (row : Row) (at_ : Nat) : Row :=
  if at_ ≥ row.chars.length then row
  else editor_update_row T syn incoming
    { row with chars := row.chars.take at_ ++ row.chars.drop (at_ + 1) }

/-- A row whose derived fields are in sync with its raw bytes, as the
editor maintains for every row it ever exposes (the §3 invariant). -/
def rowSynced (T : Nat) (syn : Option SynRule) (incoming : Bool) (row : Row) : Prop :=
  row.render = renderChars T row.chars ∧
  (row.highLight, row.openComment) =
    updateSyntaxRow syn row.render incoming row.openComment

/-! ## Quit confirmation (editor.c lines 44-45, 269-366, 984-1002) -/

/-- `QUIT_TIMES`: quitting with unsaved changes takes this many extra
confirmations. -/
def QUIT_TIMES : Nat := 3

/-- The state `editor_quit` and the keypress loop read and write: the
dirty flag, the confirmation counter and whether `exit(0)` was reached. -/
structure QuitState where
  unsavedChanges : Bool
  quitTimes : Nat
  exited : Bool
deriving DecidableEq

/-- `editor_quit`: with unsaved changes and a positive counter, post the
warning and decrement; otherwise exit. -/
def editor_quit (s : QuitState) : QuitState :=
  if s.unsavedChanges = true ∧ 0 < s.quitTimes then
    { s with quitTimes := s.quitTimes - 1 }
  else { s with exited := true }

/-- The quit-related effect of `editor_process_keypress`: Ctrl-Q (byte 17)
runs `editor_quit`; afterwards any key other than Ctrl-Q resets the
counter to `QUIT_TIMES`.  No other handler touches the counter. -/
def editor_process_keypress (s : QuitState) (key : Nat) : QuitState :=
  let s1 := if key = 17 then editor_quit s else s
  if key ≠ 17 then { s1 with quitTimes := QUIT_TIMES } else s1

/-! ## Cursor movement (editor.c lines 833-882) -/

/-- Cursor coordinates in the raw character buffer. -/
structure Cursor where
  cx : Nat
  cy : Nat
deriving DecidableEq

/-- Raw length of the row the cursor is on: 0 past the buffer end
(`row ? row->size : 0`). -/
def cursorRowLen (rows : List Row) (cy : Nat) : Nat :=
  match rows.get? cy with
  | some row => row.chars.length
  | none => 0

/-- The `switch` of `editor_move_cursor`: the four arrow movements (left
wraps to the end of the previous line, right past the line end wraps to
the start of the next; `row` is NULL past the buffer end). -/
def editor_move_cursor_arrow (rows : List Row) (key : Nat) (s : Cursor) : Cursor :=
  if key = 1000 then
    if s.cx ≠ 0 then { s with cx := s.cx - 1 }
    else if 0 < s.cy then
      { cx := (rows.getD (s.cy - 1) default).chars.length, cy := s.cy - 1 }
    else s
  else if key = 1001 then
    match rows.get? s.cy with
    | some row =>
      if s.cx < row.chars.length then { s with cx := s.cx + 1 }
      else if s.cx = row.chars.length then { cx := 0, cy := s.cy + 1 }
      else s
    | none => s
  else if key = 1002 then
    if s.cy ≠ 0 then { s with cy := s.cy - 1 } else s
  else if key = 1003 then
    if s.cy < rows.length then { s with cy := s.cy + 1 } else s
  else s

/-- `editor_move_cursor`: the arrow movement followed by the clamp of the
raw column to the destination row's length. -/
def editor_move_cursor (rows : List Row) (key : Nat) (s : Cursor) : Cursor :=
  let s1 := editor_move_cursor_arrow rows key s
  if cursorRowLen rows s1.cy < s1.cx then { s1 with cx := cursorRowLen rows s1.cy }
  else s1

/-- A row of plain text with no tabs, freshly highlighted with no rule:
render equals the raw bytes, every class `normal`, no open comment. -/
def plainRow (s : List Byte) : Row :=
  ⟨s, s, List.replicate s.length Highlight.normal, false⟩

/-- Buffer for the block-comment scenario: rows `/*`, `a`, `*/`, `b`. -/
def blockRows : List Row :=
  [plainRow [47, 42], plainRow [97], plainRow [42, 47], plainRow [98]]

/-- The scenario buffer after re-highlighting row 0 under the C rule. -/
def blockRows1 : List Row :=
  updateSyntaxBuf (some cRule) 4 blockRows 0

/-- The scenario buffer after editing row 0 to `/**/` (closing the block
comment on its own row) and re-highlighting it. -/
def blockRows2 : List Row :=
  updateSyntaxBuf (some cRule) 4 (blockRows1.set 0 ⟨[47, 42, 42, 47], [47, 42, 42, 47], [], true⟩) 0

/-- Unfolding step of the buffer cascade at a row that exists. -/
theorem updateSyntaxBuf_step (syn : Option SynRule) (bound : Nat) (rows : List Row)
    (i : Nat) (row : Row) (h : rows.get? i = some row) :
    updateSyntaxBuf syn bound rows i =
      (let p := updateSyntaxRow syn row.render (incomingOC rows i) row.openComment
       let rows' := rows.set i { row with highLight := p.1, openComment := p.2 }
       if p.2 ≠ row.openComment ∧ i + 1 < bound then
         updateSyntaxGo syn bound (bound - i) rows' (i + 1)
       else rows') := by
  unfold updateSyntaxBuf
  rw [updateSyntaxGo, h]

/-- C1: Re-highlighting a row re-highlights the following row exactly when
the row's `open_comment` value changed, recursively until a row's
`open_comment` is unchanged or the buffer end is reached; consequently,
under a rule with block-comment markers, a block comment opened on row N
and not closed there marks rows N+1..M as block-comment until a row
containing the end marker, and re-editing row N to close the comment
retroactively un-marks row N+1.  Part 1: when the flag is unchanged the
cascade stops, leaving every other row untouched.  Part 2: when the flag
changed and a next row exists (within `numberOfRows`), the result is the
cascade continued at the next row of the updated buffer.  Part 3: when the
flag changed at the last row, the cascade stops.  Parts 4-5: the concrete
block-comment scenario under the C rule — highlighting `/*`,`a`,`*/`,`b`
from row 0 marks rows 1 and 2 as block-comment (row 2 holds the end
marker, so its flag is clear) and leaves row 3 normal; editing row 0 to
`/**/` and re-highlighting it un-marks row 1. -/
theorem editor_update_syntax_cascade :
    (∀ (syn : Option SynRule) (bound : Nat) (rows : List Row) (i : Nat) (row : Row),
      rows.get? i = some row →
      (updateSyntaxRow syn row.render (incomingOC rows i) row.openComment).2 = row.openComment →
      ∀ j, j ≠ i → (updateSyntaxBuf syn bound rows i).get? j = rows.get? j) ∧
    (∀ (syn : Option SynRule) (bound : Nat) (rows : List Row) (i : Nat) (row : Row),
      rows.get? i = some row →
      (updateSyntaxRow syn row.render (incomingOC rows i) row.openComment).2 ≠ row.openComment →
      i + 1 < bound →
      updateSyntaxBuf syn bound rows i =
        updateSyntaxBuf syn bound
          (rows.set i { row with
            highLight := (updateSyntaxRow syn row.render (incomingOC rows i) row.openComment).1,
            openComment := (updateSyntaxRow syn row.render (incomingOC rows i) row.openComment).2 })
          (i + 1)) ∧
    (∀ (syn : Option SynRule) (bound : Nat) (rows : List Row) (i : Nat) (row : Row),
      rows.get? i = some row →
      ¬ i + 1 < bound →
      updateSyntaxBuf syn bound rows i =
        rows.set i { row with
          highLight := (updateSyntaxRow syn row.render (incomingOC rows i) row.openComment).1,
          openComment := (updateSyntaxRow syn row.render (incomingOC rows i) row.openComment).2 }) ∧
    ((blockRows1.getD 0 default).openComment = true ∧
      (blockRows1.getD 1 default).highLight = [Highlight.mlcomment] ∧
      (blockRows1.getD 1 default).openComment = true ∧
      (blockRows1.getD 2 default).highLight = [Highlight.mlcomment, Highlight.mlcomment] ∧
      (blockRows1.getD 2 default).openComment = false ∧
      (blockRows1.getD 3 default).highLight = [Highlight.normal]) ∧
    ((blockRows2.getD 1 default).highLight = [Highlight.normal] ∧
      (blockRows2.getD 1 default).openComment = false) := by
  refine ⟨?_, ?_, ?_, by decide, by decide⟩
  · intro syn bound rows i row h hunch j hj
    rw [updateSyntaxBuf_step syn bound rows i row h]
    simp only [hunch, ne_eq, not_true_eq_false, false_and, if_false]
    exact List.get?_set_ne _ rows (Ne.symm hj)
  · intro syn bound rows i row h hch hlt
    rw [updateSyntaxBuf_step syn bound rows i row h]
    simp only [hch, ne_eq, not_false_eq_true, hlt, and_self, if_true]
    unfold updateSyntaxBuf
    have : bound - i = (bound - (i + 1)) + 1 := by omega
    rw [this]
  · intro syn bound rows i row h hlt
    rw [updateSyntaxBuf_step syn bound rows i row h]
    simp only [hlt, and_false, if_false]

/-- Witness for the cascade theorem: with no rule the flag is unchanged,
so re-highlighting row 0 of a two-row buffer leaves row 1 untouched. -/
theorem editor_update_syntax_cascade_witness :
    (updateSyntaxBuf none 2 [plainRow [97], plainRow [98]] 0).get? 1 =
      [plainRow [97], plainRow [98]].get? 1 :=
  editor_update_syntax_cascade.1 none 2 [plainRow [97], plainRow [98]] 0
    (plainRow [97]) (by decide) (by decide) 1 (by decide)

/-- C2: for every row, tab stop size at least 1 and raw column
`cx ≤ row.size`, converting to a rendered column with
`editor_row_cx_to_rx` and back with `editor_row_rx_to_cx` returns `cx`. -/
theorem editor_row_rx_to_cx_cx_to_rx (T : Nat) (chars : List Byte) (cx : Nat)
    (hT : 1 ≤ T) (hcx : cx ≤ chars.length) :
    editor_row_rx_to_cx T chars (editor_row_cx_to_rx T chars cx) = cx := by
  unfold editor_row_rx_to_cx editor_row_cx_to_rx
  simpa using rxToCxGo_foldl T chars cx 0 0 hcx

/-- Witness for the round trip on the row `a`, tab, `b` with tab stop 4
and raw column 2 (rendered column 4). -/
theorem editor_row_rx_to_cx_cx_to_rx_witness :
    1 ≤ 4 ∧ 2 ≤ (bytes "a\tb").length ∧
      editor_row_rx_to_cx 4 (bytes "a\tb") (editor_row_cx_to_rx 4 (bytes "a\tb") 2) = 2 :=
  ⟨by decide, by decide,
    editor_row_rx_to_cx_cx_to_rx 4 (bytes "a\tb") 2 (by decide) (by decide)⟩

/-- C3 counterexample: with no rule, `editor_update_syntax` classifies all
bytes as normal but returns before touching `hightLightOpenComment`, so a
row whose flag was `true` keeps it — the flag is not forced to `false`. -/
theorem updateSyntax_noRule_counterexample :
    (updateSyntaxRow none [120] false true).1 = [Highlight.normal] ∧
    ¬ (updateSyntaxRow none [120] false true).2 = false := by
  decide

/-- C3 amended: when no syntax rule is active, re-highlighting a row
classifies every byte of its render buffer as `normal` and leaves the
row's `open_comment` flag unchanged (the rule-less early return does not
write the flag); at the buffer level only row `i`'s highlight array
changes and no cascade is triggered. -/
theorem updateSyntax_noRule :
    (∀ (render : List Byte) (incoming oldOC : Bool),
      updateSyntaxRow none render incoming oldOC
        = (List.replicate render.length Highlight.normal, oldOC)) ∧
    (∀ (bound : Nat) (rows : List Row) (i : Nat),
      updateSyntaxBuf none bound rows i
        = match rows.get? i with
          | none => rows
          | some row => rows.set i { row with
              highLight := List.replicate row.render.length Highlight.normal }) := by
  constructor
  · intro render incoming oldOC
    rfl
  · intro bound rows i
    cases h : rows.get? i with
    | none =>
      unfold updateSyntaxBuf
      rw [updateSyntaxGo, h]
    | some row =>
      rw [updateSyntaxBuf_step none bound rows i row h]
      simp [updateSyntaxRow]

/-- C6: serialising the buffer produces exactly each row's raw bytes
followed by one LF byte, in row order, and nothing else; the buffer of
rows `a`, `bb` serialises to the five bytes `a\nbb\n`. -/
theorem editor_rows_to_string_spec :
    (∀ rows : List Row,
      editor_rows_to_string rows = (rows.map (fun r => r.chars ++ [10])).flatten) ∧
    editor_rows_to_string [plainRow [97], plainRow [98, 98]] = bytes "a\nbb\n" := by
  constructor
  · intro rows
    induction rows with
    | nil => rfl
    | cons r rest ih => simp [editor_rows_to_string, ih]
  · decide

/-- The old open-comment result fed back into `editor_update_syntax` is a
fixed point: with a rule the flag does not depend on it, without a rule it
is returned unchanged. -/
theorem updateSyntaxRow_old_eq (syn : Option SynRule) (r r' : List Byte)
    (inc inc' oc : Bool) :
    updateSyntaxRow syn r inc ((updateSyntaxRow syn r' inc' oc).2) =
      updateSyntaxRow syn r inc oc := by
  cases syn <;> rfl

/-- Splicing a byte into a list at `at_` and removing the byte at `at_`
returns the original list. -/
theorem take_cons_drop_cancel (l : List Byte) (at_ c : Nat) (h : at_ ≤ l.length) :
    (l.take at_ ++ c :: l.drop at_).take at_ ++
      (l.take at_ ++ c :: l.drop at_).drop (at_ + 1) = l := by
  have hlen : (l.take at_).length = at_ := by
    simp [List.length_take, Nat.min_eq_left h]
  have key : ∀ A B : List Byte, A.length = at_ →
      (A ++ c :: B).take at_ = A ∧ (A ++ c :: B).drop (at_ + 1) = B := by
    intro A B hA
    subst hA
    refine ⟨List.take_left _ _, ?_⟩
    rw [List.drop_append]
    simp
  obtain ⟨h1, h2⟩ := key (l.take at_) (l.drop at_) hlen
  rw [h1, h2, List.take_append_drop]

/-- C7: for every row in sync with its raw bytes and every column
`at_ ≤ row.size`, inserting a character at `at_` and then deleting the
character at `at_` restores the row — raw, render and highlight buffers
and the open-comment flag — exactly. -/
theorem editor_row_insert_delete_cancel (T : Nat) (syn : Option SynRule)
    (incoming : Bool) (row : Row) (at_ c : Nat)
    (hat : at_ ≤ row.chars.length)
    (hsync : rowSynced T syn incoming row) :
    editor_row_delete_character T syn incoming
      (editor_row_insert_character T syn incoming row at_ c) at_ = row := by
  obtain ⟨hren, hhl⟩ := hsync
  cases row with
  | mk chars render hl oc =>
  simp only at hren hhl hat
  rw [hren] at hhl
  have hnot : ¬ at_ > chars.length := by omega
  have hlen1 : (chars.take at_ ++ c :: chars.drop at_).length = chars.length + 1 := by
    simp only [List.length_append, List.length_take, List.length_cons,
      List.length_drop, Nat.min_eq_left hat]
    omega
  simp only [editor_row_insert_character, editor_update_row, if_neg hnot,
    editor_row_delete_character]
  rw [if_neg (by rw [hlen1]; omega)]
  simp only [take_cons_drop_cancel chars at_ c hat]
  simp only [Row.mk.injEq, updateSyntaxRow_old_eq]
  simp [← hhl, hren]

/-- Witness for the insert-delete round trip: the two-byte row `ab` with
tab stop 4 and no rule, inserting byte 99 at column 1. -/
theorem editor_row_insert_delete_cancel_witness :
    1 ≤ (bytes "ab").length ∧
    rowSynced 4 none false (plainRow (bytes "ab")) ∧
    editor_row_delete_character 4 none false
      (editor_row_insert_character 4 none false (plainRow (bytes "ab")) 1 99) 1
        = plainRow (bytes "ab") :=
  ⟨by decide, ⟨by decide, by decide⟩,
    editor_row_insert_delete_cancel 4 none false (plainRow (bytes "ab")) 1 99
      (by decide) ⟨by decide, by decide⟩⟩

/-- Pressing quit repeatedly from a given state. -/
def pressQuit : Nat → QuitState → QuitState
  | 0, s => s
  | n + 1, s => pressQuit n (editor_process_keypress s 17)

/-- The initial dirty-buffer state: unsaved changes, full counter, still
running. -/
def initialUnsaved : QuitState :=
  ⟨true, QUIT_TIMES, false⟩

/-- Once the editor has exited, further quit presses keep it exited. -/
theorem pressQuit_exited (n : Nat) :
    ∀ s : QuitState, s.exited = true → (pressQuit n s).exited = true := by
  induction n with
  | zero => intro s hs; exact hs
  | succ n ih =>
    intro s hs
    apply ih
    show (editor_process_keypress s 17).exited = true
    unfold editor_process_keypress editor_quit
    simp only [if_neg (by simp : ¬ (17 : Nat) ≠ 17), if_pos rfl]
    by_cases hc : s.unsavedChanges = true ∧ 0 < s.quitTimes
    · rw [if_pos hc]
      exact hs
    · rw [if_neg hc]
      simp

/-- C8: while the buffer has unsaved changes, a quit keypress with a
positive confirmation counter does not exit but decrements the counter;
any keypress other than quit resets the counter to `QUIT_TIMES`; and from
the initial dirty state the editor has exited after `k` consecutive quit
presses exactly when `k` exceeds `QUIT_TIMES` — the first press plus
`QUIT_TIMES` repetitions. -/
theorem editor_quit_confirmation :
    (∀ s : QuitState, s.unsavedChanges = true → 0 < s.quitTimes →
      editor_process_keypress s 17 = { s with quitTimes := s.quitTimes - 1 }) ∧
    (∀ (s : QuitState) (key : Nat), key ≠ 17 →
      (editor_process_keypress s key).quitTimes = QUIT_TIMES) ∧
    (∀ k : Nat, (pressQuit k initialUnsaved).exited = true ↔ QUIT_TIMES < k) := by
  refine ⟨?_, ?_, ?_⟩
  · intro s hu hq
    simp only [editor_process_keypress, editor_quit, hu, true_and, if_pos hq]
    simp
  · intro s key hk
    simp only [editor_process_keypress, if_neg hk, if_pos hk]
  · intro k
    constructor
    · intro hex
      by_contra hk
      have hk' : k ≤ 3 := by simp [QUIT_TIMES] at hk; omega
      interval_cases k <;> revert hex <;> decide
    · intro hk
      have h4 : QUIT_TIMES + 1 ≤ k := hk
      obtain ⟨m, hm⟩ : ∃ m, k = (QUIT_TIMES + 1) + m := ⟨k - (QUIT_TIMES + 1), by omega⟩
      subst hm
      have hsplit : ∀ (a b : Nat) (s : QuitState),
          pressQuit (a + b) s = pressQuit b (pressQuit a s) := by
        intro a
        induction a with
        | zero => intro b s; rw [Nat.zero_add]; rfl
        | succ a ih =>
          intro b s
          show pressQuit (a + 1 + b) s = _
          have : a + 1 + b = (a + b) + 1 := by omega
          rw [this]
          show pressQuit (a + b) (editor_process_keypress s 17) = _
          rw [ih]
          rfl
      rw [hsplit (QUIT_TIMES + 1) m initialUnsaved]
      apply pressQuit_exited
      decide

/-- Witness for the quit-confirmation theorem: in the dirty initial state
one quit press decrements the counter from 3 to 2 without exiting. -/
theorem editor_quit_confirmation_witness :
    editor_process_keypress ⟨true, 3, false⟩ 17 = ⟨true, 2, false⟩ :=
  editor_quit_confirmation.1 ⟨true, 3, false⟩ rfl (by decide)

/-- C9: every `editor_move_cursor` call, from any state and for any key,
leaves the cursor's raw column at most the length of the row the cursor
ends on (0 when the cursor row is past the last buffer row). -/
theorem editor_move_cursor_clamps (rows : List Row) (key : Nat) (s : Cursor) :
    (editor_move_cursor rows key s).cx
      ≤ cursorRowLen rows (editor_move_cursor rows key s).cy := by
  unfold editor_move_cursor
  by_cases h : cursorRowLen rows (editor_move_cursor_arrow rows key s).cy
      < (editor_move_cursor_arrow rows key s).cx
  · rw [if_pos h]
  · rw [if_neg h]
    exact Nat.not_lt.mp h

/-! ## Search engine (editor.c lines 639-697) -/

/-- `strstr(hay, needle)` for NUL-free byte strings: the first offset at
which `needle` occurs in `hay` as a byte substring (`some 0` for the empty
needle), else `none`. -/
def strstrIdx (hay needle : List Byte) : Option Nat :=
  (List.range (hay.length + 1)).find?
    (fun o => decide ((hay.drop o).take needle.length = needle))

/-- `memset(&l[start], v, len)` on a highlight array. -/
def setRange (l : List Highlight) (start len : Nat) (v : Highlight) : List Highlight :=
  l.take start ++ List.replicate len v ++ l.drop (start + len)

/-- The static state of `editor_find_callback`: index of the last matched
row (-1 for none), scan direction, and the saved pre-match highlight array
of the matched row together with its line (`savedHighLightedLine` /
`savedHighLight`, `none` when `savedHighLight == NULL`). -/
structure FindState where
  lastMatch : Int
  direction : Int
  saved : Option (Nat × List Highlight)
deriving DecidableEq

/-- The editor state the find callback reads and writes: the buffer rows,
the cursor, the row scroll offset and the callback's static state. -/
structure FindEnv where
  rows : List Row
  cx : Nat
  cy : Nat
  rowOffset : Nat
  st : FindState
deriving DecidableEq

/-- The restore step at the top of `editor_find_callback`: if a highlight
array was saved, `memcpy` it back over the saved row's highlight array
(`renderSize` entries of `editorRows[savedHighLightedLine]`) and free
it. -/
def restoreSaved (env : FindEnv) : FindEnv :=
  match env.st.saved with
  | none => env
  | some (line, hl) =>
    { env with
      rows := env.rows.set line { env.rows.getD line default with highLight := hl.take (env.rows.getD line default).render.length ++ (env.rows.getD line default).highLight.drop (env.rows.getD line default).render.length }
      st := { env.st with saved := none } }

/-- The wrap-around of the scan index: `-1` wraps to the last row,
`numberOfRows` wraps to row 0. -/
def wrapIdx (n : Nat) (c1 : Int) : Int :=
  if c1 = -1 then (n : Int) - 1
  else if c1 = (n : Int) then 0
  else c1

/-- The scan loop of `editor_find_callback`: starting from `current`, step
by `direction` with wrap-around for at most `fuel = numberOfRows`
iterations; return the first row index whose render buffer contains the
query, with the match offset. -/
def findLoop (rows : List Row) (query : List Byte) (dir : Int) :
    Int → Nat → Option (Nat × Nat)
  | _, 0 => none
  | current, fuel + 1 =>
    let c2 := wrapIdx rows.length (current + dir)
    match strstrIdx (rows.getD c2.toNat default).render query with
    | some o => some (c2.toNat, o)
    | none => findLoop rows query dir c2 fuel

/-- The direction set by the key-dispatch of the callback: right/down
turn the scan forward, left/up backward, any other key forward. -/
def findDir0 (k : Nat) : Int :=
  if k = 1001 ∨ k = 1003 then 1
  else if k = 1000 ∨ k = 1002 then -1
  else 1

/-- The last-match state after the key dispatch: arrow keys keep it, any
other key resets it to -1 (fresh search). -/
def findLm0 (st : FindState) (k : Nat) : Int :=
  if k = 1001 ∨ k = 1003 ∨ k = 1000 ∨ k = 1002 then st.lastMatch else -1

/-- The effective scan direction: forced forward when there is no last
match (`if (lastMatch == -1) direction = 1`). -/
def findDir (st : FindState) (k : Nat) : Int :=
  if findLm0 st k = -1 then 1 else findDir0 k

/-- The body of `editor_find_callback` after the restore step: on Enter
(13) or Escape (27) reset the static state and return; otherwise scan from
one past the last match, and on a match move the cursor (the raw column is
`editor_row_rx_to_cx` of the match offset plus one), set the row offset to
the row count, save the matched row's highlight array and paint the match
span with the search-match class. -/
def findDispatch (T : Nat) (env : FindEnv) (query : List Byte) (key : Nat) :
    FindEnv :=
  if key = 13 ∨ key = 27 then
    { env with st := { env.st with lastMatch := -1, direction := 1 } }
  else
    match findLoop env.rows query (findDir env.st key) (findLm0 env.st key)
        env.rows.length with
    | none => { env with st := { env.st with
        lastMatch := findLm0 env.st key, direction := findDir env.st key } }
    | some (idx, o) =>
      { rows := env.rows.set idx
          { env.rows.getD idx default with
            highLight := setRange (env.rows.getD idx default).highLight o
              query.length Highlight.searchMatch }
        cx := editor_row_rx_to_cx T (env.rows.getD idx default).chars o + 1
        cy := idx
        rowOffset := env.rows.length
        st := { lastMatch := (idx : Int), direction := findDir env.st key
                saved := some (idx, (env.rows.getD idx default).highLight.take
                  (env.rows.getD idx default).render.length) } }

/-- `editor_find_callback`: restore any saved highlight array first, then
handle the key and search. -/
def editor_find_callback (T : Nat) (env : FindEnv) (query : List Byte) (key : Nat) :
    FindEnv :=
  findDispatch T (restoreSaved env) query key

/-- The forward reference scan: the first row at index `j` or later (up to
`j + fuel`) whose render buffer contains the query, with the offset of the
first occurrence in that row. -/
def firstMatchFrom (rows : List Row) (query : List Byte) : Nat → Nat → Option (Nat × Nat)
  | _, 0 => none
  | j, fuel + 1 =>
    match strstrIdx (rows.getD j default).render query with
    | some o => some (j, o)
    | none => firstMatchFrom rows query (j + 1) fuel

/-! ## Lemmas about the search engine -/

theorem restoreSaved_of_none (env : FindEnv) (h : env.st.saved = none) :
    restoreSaved env = env := by
  unfold restoreSaved
  rw [h]

theorem restoreSaved_saved_none (env : FindEnv) :
    (restoreSaved env).st.saved = none := by
  unfold restoreSaved
  cases h : env.st.saved with
  | none => rw [h]
  | some p =>
    obtain ⟨line, hl⟩ := p
    rfl

theorem get?_getD (l : List Row) (n : Nat) (h : n < l.length) :
    l.get? n = some (l.getD n default) := by
  rw [List.getD_eq_get?]
  cases hg : l.get? n with
  | none =>
    rw [List.get?_eq_none] at hg
    omega
  | some a => rfl

theorem set_get?_self (l : List Row) (n : Nat) (row : Row)
    (h : l.get? n = some row) : l.set n row = l := by
  induction l generalizing n with
  | nil => rfl
  | cons a rest ih =>
    cases n with
    | zero =>
      simp only [List.get?] at h
      cases h
      rfl
    | succ n =>
      simp only [List.get?] at h
      simp only [List.set]
      rw [ih n h]

theorem strstrIdx_some (hay q : List Byte) (o : Nat)
    (h : strstrIdx hay q = some o) :
    o ≤ hay.length ∧ o + q.length ≤ hay.length ∧ (hay.drop o).take q.length = q := by
  have hmem := List.mem_of_find?_eq_some h
  have hp := List.find?_some h
  rw [List.mem_range] at hmem
  rw [decide_eq_true_eq] at hp
  have hlen : ((hay.drop o).take q.length).length = q.length := by rw [hp]
  rw [List.length_take, List.length_drop] at hlen
  refine ⟨by omega, by omega, hp⟩

theorem strstrIdx_isSome_iff (hay q : List Byte) :
    (strstrIdx hay q).isSome = true ↔ List.IsInfix q hay := by
  constructor
  · intro h
    obtain ⟨o, ho⟩ := Option.isSome_iff_exists.mp h
    obtain ⟨_, _, hp⟩ := strstrIdx_some hay q o ho
    refine ⟨hay.take o, (hay.drop o).drop q.length, ?_⟩
    have h2 : (hay.drop o).take q.length ++ (hay.drop o).drop q.length = hay.drop o :=
      List.take_append_drop _ _
    rw [hp] at h2
    rw [List.append_assoc, h2, List.take_append_drop]
  · rintro ⟨s, t, hst⟩
    unfold strstrIdx
    rw [List.find?_isSome]
    refine ⟨s.length, ?_, ?_⟩
    · rw [List.mem_range]
      have : s.length ≤ hay.length := by
        rw [← hst]
        simp [List.length_append]
      omega
    · rw [decide_eq_true_eq, ← hst, List.append_assoc, List.drop_left, List.take_left]

theorem setRange_length (l : List Highlight) (start len : Nat) (v : Highlight)
    (h : start + len ≤ l.length) :
    (setRange l start len v).length = l.length := by
  unfold setRange
  simp only [List.length_append, List.length_take, List.length_replicate,
    List.length_drop]
  omega

theorem wrapIdx_mem (n : Nat) (c1 : Int) (hn : 1 ≤ n) (hlo : -1 ≤ c1)
    (hhi : c1 ≤ (n : Int)) :
    0 ≤ wrapIdx n c1 ∧ wrapIdx n c1 < (n : Int) := by
  unfold wrapIdx
  split
  · omega
  · split
    · omega
    · omega

theorem findLoop_some_lt (rows : List Row) (q : List Byte) (dir : Int)
    (hdir : dir = 1 ∨ dir = -1) :
    ∀ (fuel : Nat) (current : Int) (idx o : Nat),
      fuel ≤ rows.length →
      (current = -1 → dir = 1) →
      (current = -1 ∨ (0 ≤ current ∧ current < (rows.length : Int))) →
      findLoop rows q dir current fuel = some (idx, o) →
      idx < rows.length ∧ strstrIdx (rows.getD idx default).render q = some o := by
  intro fuel
  induction fuel with
  | zero =>
    intro current idx o _ _ _ hfind
    exact absurd hfind (by simp [findLoop])
  | succ fuel ih =>
    intro current idx o hfuel hneg hrange hfind
    have hn : 1 ≤ rows.length := by omega
    have hc1 : -1 ≤ current + dir ∧ current + dir ≤ (rows.length : Int) := by
      rcases hdir with h1 | h1 <;> subst h1
      · rcases hrange with h2 | h2 <;> omega
      · rcases hrange with h2 | h2
        · exact absurd (hneg h2) (by decide)
        · omega
    obtain ⟨hw0, hwn⟩ := wrapIdx_mem rows.length (current + dir) hn hc1.1 hc1.2
    simp only [findLoop] at hfind
    cases hs : strstrIdx (rows.getD (wrapIdx rows.length (current + dir)).toNat
        default).render q with
    | some o' =>
      rw [hs] at hfind
      cases hfind
      constructor
      · omega
      · exact hs
    | none =>
      rw [hs] at hfind
      exact ih (wrapIdx rows.length (current + dir)) idx o (by omega)
        (by omega) (Or.inr ⟨hw0, hwn⟩) hfind

theorem findLoop_fwd (rows : List Row) (q : List Byte) :
    ∀ (fuel j : Nat), j + fuel ≤ rows.length →
      findLoop rows q 1 ((j : Int) - 1) fuel = firstMatchFrom rows q j fuel := by
  intro fuel
  induction fuel with
  | zero => intro j _; rfl
  | succ fuel ih =>
    intro j hj
    have hjn : j < rows.length := by omega
    have hw : wrapIdx rows.length ((j : Int) - 1 + 1) = (j : Int) := by
      unfold wrapIdx
      rw [if_neg (by omega), if_neg (by omega)]
      omega
    simp only [findLoop, hw, Int.toNat_natCast]
    cases hs : strstrIdx (rows.getD j default).render q with
    | some o => simp only [firstMatchFrom, hs]
    | none =>
      simp only [firstMatchFrom, hs]
      have hcast : (j : Int) = ((j + 1 : Nat) : Int) - 1 := by push_cast; omega
      rw [hcast, ih (j + 1) (by omega)]

theorem firstMatchFrom_spec (rows : List Row) (q : List Byte) :
    ∀ (fuel j m o : Nat), firstMatchFrom rows q j fuel = some (m, o) →
      j ≤ m ∧ m < j + fuel ∧ strstrIdx (rows.getD m default).render q = some o ∧
      ∀ l, j ≤ l → l < m → strstrIdx (rows.getD l default).render q = none := by
  intro fuel
  induction fuel with
  | zero =>
    intro j m o h
    exact absurd h (by simp [firstMatchFrom])
  | succ fuel ih =>
    intro j m o h
    simp only [firstMatchFrom] at h
    cases hs : strstrIdx (rows.getD j default).render q with
    | some o' =>
      rw [hs] at h
      cases h
      exact ⟨Nat.le_refl _, by omega, hs, by intro l h1 h2; omega⟩
    | none =>
      rw [hs] at h
      obtain ⟨h1, h2, h3, h4⟩ := ih (j + 1) m o h
      refine ⟨by omega, by omega, h3, ?_⟩
      intro l hjl hlm'
      rcases Nat.eq_or_lt_of_le hjl with rfl | hlt
      · exact hs
      · exact h4 l (by omega) hlm'

theorem findDir_cases (st : FindState) (k : Nat) :
    findDir st k = 1 ∨ findDir st k = -1 := by
  unfold findDir findDir0
  split
  · exact Or.inl rfl
  · split
    · exact Or.inl rfl
    · split
      · exact Or.inr rfl
      · exact Or.inl rfl

theorem findDir_of_lm0 (st : FindState) (k : Nat) (h : findLm0 st k = -1) :
    findDir st k = 1 := by
  unfold findDir
  rw [if_pos h]

theorem findLm0_range (st : FindState) (k : Nat) (n : Nat)
    (hlm : st.lastMatch = -1 ∨ (0 ≤ st.lastMatch ∧ st.lastMatch < (n : Int))) :
    findLm0 st k = -1 ∨ (0 ≤ findLm0 st k ∧ findLm0 st k < (n : Int)) := by
  unfold findLm0
  split
  · exact hlm
  · exact Or.inl rfl

theorem findDispatch_enter (T : Nat) (env : FindEnv) (q : List Byte) (k : Nat)
    (hk : k = 13 ∨ k = 27) :
    findDispatch T env q k =
      { env with st := { env.st with lastMatch := -1, direction := 1 } } := by
  unfold findDispatch
  rw [if_pos hk]

theorem findDispatch_cases (T : Nat) (env : FindEnv) (q : List Byte) (k : Nat)
    (hk : ¬(k = 13 ∨ k = 27))
    (hlm : env.st.lastMatch = -1 ∨
      (0 ≤ env.st.lastMatch ∧ env.st.lastMatch < (env.rows.length : Int))) :
    ((findDispatch T env q k).rows = env.rows ∧
      (findDispatch T env q k).st.saved = env.st.saved) ∨
    ∃ (idx o : Nat) (row : Row) (d : Int),
      idx < env.rows.length ∧
      env.rows.get? idx = some row ∧
      strstrIdx row.render q = some o ∧
      findDispatch T env q k =
        { rows := env.rows.set idx
            { row with highLight := setRange row.highLight o q.length Highlight.searchMatch }
          cx := editor_row_rx_to_cx T row.chars o + 1
          cy := idx
          rowOffset := env.rows.length
          st := ⟨(idx : Int), d, some (idx, row.highLight.take row.render.length)⟩ } := by
  unfold findDispatch
  rw [if_neg hk]
  cases hf : findLoop env.rows q (findDir env.st k) (findLm0 env.st k)
      env.rows.length with
  | none =>
    exact Or.inl ⟨rfl, rfl⟩
  | some p =>
    obtain ⟨idx, o⟩ := p
    have hspec := findLoop_some_lt env.rows q (findDir env.st k)
      (findDir_cases env.st k) env.rows.length (findLm0 env.st k) idx o
      (Nat.le_refl _) (findDir_of_lm0 env.st k)
      (findLm0_range env.st k env.rows.length hlm) hf
    refine Or.inr ⟨idx, o, env.rows.getD idx default, findDir env.st k,
      hspec.1, get?_getD env.rows idx hspec.1, hspec.2, rfl⟩

/-- C4 counterexample: in the spec's own example — forward search for
`def` in rows `abc`, `def`, `ghi` with no previous match — the callback
moves the cursor to row 1 but raw column 1, while the Coordinate Mapper
yields raw column 0 for the match's rendered column 0 (the code adds 1 to
`editor_row_rx_to_cx`), so the cursor column is not the mapped column. -/
def searchDemoRows : List Row :=
  [plainRow (bytes "abc"), plainRow (bytes "def"), plainRow (bytes "ghi")]

/-- The search environment of the spec's example: fresh state, no
previous match. -/
def searchDemoEnv : FindEnv :=
  ⟨searchDemoRows, 0, 0, 0, ⟨-1, 1, none⟩⟩

theorem editor_find_cursor_counterexample :
    (editor_find_callback 4 searchDemoEnv (bytes "def") 120).cy = 1 ∧
    editor_row_rx_to_cx 4 (searchDemoRows.getD 1 default).chars 0 = 0 ∧
    (editor_find_callback 4 searchDemoEnv (bytes "def") 120).cx ≠
      editor_row_rx_to_cx 4 (searchDemoRows.getD 1 default).chars 0 := by
  decide

/-- C4 amended: a forward search step with no previous match scans rows
from row 0 onward, selects the first row whose render buffer contains the
query as a byte substring (every earlier row does not contain it), and
moves the cursor to that row with raw column `editor_row_rx_to_cx` of the
match's rendered column plus one. -/
theorem editor_find_forward_first (T : Nat) (env : FindEnv) (q : List Byte)
    (k m o : Nat)
    (hk13 : k ≠ 13) (hk27 : k ≠ 27)
    (hsaved : env.st.saved = none)
    (hlm : env.st.lastMatch = -1)
    (hm : firstMatchFrom env.rows q 0 env.rows.length = some (m, o)) :
    (editor_find_callback T env q k).cy = m ∧
    (editor_find_callback T env q k).cx
      = editor_row_rx_to_cx T (env.rows.getD m default).chars o + 1 ∧
    strstrIdx (env.rows.getD m default).render q = some o ∧
    List.IsInfix q (env.rows.getD m default).render ∧
    (∀ j, j < m → ¬ List.IsInfix q (env.rows.getD j default).render) := by
  have hlm0 : findLm0 env.st k = -1 := by
    unfold findLm0
    split
    · exact hlm
    · rfl
  have hdir : findDir env.st k = 1 := findDir_of_lm0 env.st k hlm0
  have hloop : findLoop env.rows q (findDir env.st k) (findLm0 env.st k)
      env.rows.length = some (m, o) := by
    rw [hdir, hlm0]
    have : (-1 : Int) = ((0 : Nat) : Int) - 1 := by decide
    rw [this, findLoop_fwd env.rows q env.rows.length 0 (by omega)]
    exact hm
  have hcb : editor_find_callback T env q k =
      findDispatch T env q k := by
    unfold editor_find_callback
    rw [restoreSaved_of_none env hsaved]
  obtain ⟨h1, h2, h3, h4⟩ := firstMatchFrom_spec env.rows q env.rows.length 0 m o hm
  have hdisp : findDispatch T env q k =
      { rows := env.rows.set m
          { env.rows.getD m default with
            highLight := setRange (env.rows.getD m default).highLight o
              q.length Highlight.searchMatch }
        cx := editor_row_rx_to_cx T (env.rows.getD m default).chars o + 1
        cy := m
        rowOffset := env.rows.length
        st := ⟨(m : Int), findDir env.st k,
          some (m, (env.rows.getD m default).highLight.take
            (env.rows.getD m default).render.length)⟩ } := by
    unfold findDispatch
    rw [if_neg (by push_neg; exact ⟨hk13, hk27⟩), hloop]
  refine ⟨by rw [hcb, hdisp], by rw [hcb, hdisp], h3, ?_, ?_⟩
  · rw [← strstrIdx_isSome_iff, h3]
    rfl
  · intro j hj
    rw [← strstrIdx_isSome_iff, h4 j (by omega) hj]
    simp

/-- Witness for the amended search theorem: the spec's example buffer,
searching for `def` matches row 1 at rendered column 0 and puts the
cursor at raw column 1. -/
theorem editor_find_forward_first_witness :
    (editor_find_callback 4 searchDemoEnv (bytes "def") 120).cy = 1 ∧
    (editor_find_callback 4 searchDemoEnv (bytes "def") 120).cx
      = editor_row_rx_to_cx 4 (searchDemoEnv.rows.getD 1 default).chars 0 + 1 ∧
    strstrIdx (searchDemoEnv.rows.getD 1 default).render (bytes "def") = some 0 ∧
    List.IsInfix (bytes "def") (searchDemoEnv.rows.getD 1 default).render ∧
    (∀ j, j < 1 → ¬ List.IsInfix (bytes "def") (searchDemoEnv.rows.getD j default).render) :=
  editor_find_forward_first 4 searchDemoEnv (bytes "def") 120 1 0
    (by decide) (by decide) rfl rfl (by decide)

theorem restoreSaved_of_some (env : FindEnv) (line : Nat) (hl : List Highlight)
    (hsv : env.st.saved = some (line, hl)) :
    (restoreSaved env).rows = env.rows.set line { env.rows.getD line default with highLight := hl.take (env.rows.getD line default).render.length ++ (env.rows.getD line default).highLight.drop (env.rows.getD line default).render.length } := by
  simp only [restoreSaved, hsv]

/-- C5: the search callback restores highlights.  Part 1: any callback
invocation acts exactly as on the restored environment — the restore step
comes first.  Part 2: starting from a clean state (nothing saved, valid
last-match index, highlight arrays in sync with the render buffers), one
search step followed by the Enter (13) or Escape (27) step leaves every
row's highlight array byte-for-byte as it was, and nothing saved — search
never permanently changes any row's highlighting. -/
theorem editor_find_restores_highlights (T : Nat) (env : FindEnv)
    (q1 q2 : List Byte) (k1 k2 : Nat)
    (hsaved : env.st.saved = none)
    (hwf : ∀ r ∈ env.rows, r.highLight.length = r.render.length)
    (hlm : env.st.lastMatch = -1 ∨
      (0 ≤ env.st.lastMatch ∧ env.st.lastMatch < (env.rows.length : Int)))
    (hk2 : k2 = 13 ∨ k2 = 27) :
    (∀ (env' : FindEnv) (q : List Byte) (k : Nat),
      editor_find_callback T env' q k = editor_find_callback T (restoreSaved env') q k) ∧
    (editor_find_callback T (editor_find_callback T env q1 k1) q2 k2).rows = env.rows ∧
    (editor_find_callback T (editor_find_callback T env q1 k1) q2 k2).st.saved = none := by
  have hfirst : ∀ (env' : FindEnv) (q : List Byte) (k : Nat),
      editor_find_callback T env' q k = editor_find_callback T (restoreSaved env') q k := by
    intro env' q k
    unfold editor_find_callback
    rw [restoreSaved_of_none (restoreSaved env') (restoreSaved_saved_none env')]
  have hcb1 : editor_find_callback T env q1 k1 = findDispatch T env q1 k1 := by
    unfold editor_find_callback
    rw [restoreSaved_of_none env hsaved]
  have hcb2 : ∀ e : FindEnv, editor_find_callback T e q2 k2
      = { restoreSaved e with
          st := { (restoreSaved e).st with lastMatch := -1, direction := 1 } } := by
    intro e
    unfold editor_find_callback
    exact findDispatch_enter T (restoreSaved e) q2 k2 hk2
  have hrest : (restoreSaved (editor_find_callback T env q1 k1)).rows = env.rows := by
    rw [hcb1]
    by_cases hk1 : k1 = 13 ∨ k1 = 27
    · have hsv1 : (findDispatch T env q1 k1).st.saved = none := by
        rw [findDispatch_enter T env q1 k1 hk1]
        exact hsaved
      rw [restoreSaved_of_none _ hsv1, findDispatch_enter T env q1 k1 hk1]
    · rcases findDispatch_cases T env q1 k1 hk1 hlm with
        ⟨hr, hs⟩ | ⟨idx, o, row, d, hidx, hrow, hstr, heq⟩
      · rw [restoreSaved_of_none _ (by rw [hs]; exact hsaved)]
        exact hr
      · have hl_len : row.highLight.length = row.render.length :=
          hwf row (List.get?_mem hrow)
        obtain ⟨ho1, ho2, _⟩ := strstrIdx_some row.render q1 o hstr
        have hget' : (env.rows.set idx { row with highLight := setRange row.highLight o q1.length Highlight.searchMatch }).get? idx = some { row with highLight := setRange row.highLight o q1.length Highlight.searchMatch } :=
          List.get?_set_eq_of_lt _ hidx
        have hgetD : (env.rows.set idx { row with highLight := setRange row.highLight o q1.length Highlight.searchMatch }).getD idx default = { row with highLight := setRange row.highLight o q1.length Highlight.searchMatch } := by
          rw [List.getD_eq_get?, hget']
          rfl
        rw [heq, restoreSaved_of_some _ idx (row.highLight.take row.render.length) rfl]
        dsimp only
        rw [hgetD]
        dsimp only
        have hsave_eq : row.highLight.take row.render.length = row.highLight := by
          rw [← hl_len]
          exact List.take_length row.highLight
        have hsr_len : (setRange row.highLight o q1.length Highlight.searchMatch).length
            = row.render.length := by
          rw [setRange_length row.highLight o q1.length Highlight.searchMatch (by omega)]
          exact hl_len
        have hdrop_eq : (setRange row.highLight o q1.length Highlight.searchMatch).drop
            row.render.length = [] := by
          rw [← hsr_len]
          exact List.drop_length _
        rw [hsave_eq, hsave_eq, hdrop_eq, List.append_nil, List.set_set]
        have hrow_eq : ({ row with highLight := row.highLight } : Row) = row := rfl
        rw [hrow_eq]
        exact set_get?_self env.rows idx row hrow
  refine ⟨hfirst, ?_, ?_⟩
  · rw [hcb2 (editor_find_callback T env q1 k1)]
    exact hrest
  · rw [hcb2 (editor_find_callback T env q1 k1)]
    exact restoreSaved_saved_none (editor_find_callback T env q1 k1)

/-- Witness for the restore theorem: a one-row buffer `def`, one matching
search step for `de` followed by Escape, ends with the original rows and
nothing saved. -/
theorem editor_find_restores_highlights_witness :
    (editor_find_callback 4 (editor_find_callback 4
        ⟨[plainRow (bytes "def")], 0, 0, 0, ⟨-1, 1, none⟩⟩ (bytes "de") 120)
        (bytes "de") 27).rows = [plainRow (bytes "def")] ∧
    (editor_find_callback 4 (editor_find_callback 4
        ⟨[plainRow (bytes "def")], 0, 0, 0, ⟨-1, 1, none⟩⟩ (bytes "de") 120)
        (bytes "de") 27).st.saved = none :=
  ((editor_find_restores_highlights 4
      ⟨[plainRow (bytes "def")], 0, 0, 0, ⟨-1, 1, none⟩⟩ (bytes "de") (bytes "de")
      120 27 rfl (by decide) (Or.inl rfl) (Or.inr rfl)).2 : _ ∧ _)

/-! ## Buffer-level insertion (editor.c lines 759-767 and 793-820) -/

/-- `editor_insert_row`: no-op when `at_ > numberOfRows`; otherwise splice
in a new row with raw bytes `str`, derive its render buffer
(`editor_update_row`) and run `editor_update_syntax` on it — the cascade
bound is the row count *before* the insertion, because `numberOfRows` is
incremented only afterwards. -/
def editor_insert_row (T : Nat) (syn : Option SynRule) (rows : List Row)
    (at_ : Nat) (str : List Byte) : List Row :=
  if at_ > rows.length then rows
  else
    updateSyntaxBuf syn rows.length
      (rows.take at_ ++ ⟨str, renderChars T str, [], false⟩ :: rows.drop at_) at_

/-- The buffer-and-cursor state `editor_insert_character` works on. -/
structure EState where
  rows : List Row
  cx : Nat
  cy : Nat
deriving DecidableEq

/-- `editor_insert_character`: when the cursor is on the line one past the
last row, append a new empty row first; then insert the byte into the
cursor row at the (clamped) cursor column, re-render it and re-run the
highlighter from it; finally advance the cursor column. -/
def editor_insert_character (T : Nat) (syn : Option SynRule) (s : EState)
    (c : Byte) : EState :=
  let rows1 := if s.cy = s.rows.length
    then editor_insert_row T syn s.rows s.rows.length [] else s.rows
  match rows1.get? s.cy with
  | none => { s with rows := rows1 }
  | some row =>
    let a := if s.cx > row.chars.length then row.chars.length else s.cx
    let chars' := row.chars.take a ++ c :: row.chars.drop a
    let rows2 := rows1.set s.cy { row with chars := chars', render := renderChars T chars' }
    { rows := updateSyntaxBuf syn rows1.length rows2 s.cy, cx := s.cx + 1, cy := s.cy }

theorem set_append_last (rows : List Row) (row r : Row) :
    (rows ++ [row]).set rows.length r = rows ++ [r] := by
  induction rows with
  | nil => rfl
  | cons a rest ih =>
    show a :: (rest ++ [row]).set rest.length r = a :: (rest ++ [r])
    rw [ih]

theorem get?_append_last (rows : List Row) (row : Row) :
    (rows ++ [row]).get? rows.length = some row := by
  rw [List.get?_append_right (Nat.le_refl _)]
  simp

theorem updateSyntaxBuf_last (syn : Option SynRule) (bound : Nat) (rows : List Row)
    (row : Row) (hb : ¬ rows.length + 1 < bound) :
    updateSyntaxBuf syn bound (rows ++ [row]) rows.length =
      rows ++ [{ row with
        highLight := (updateSyntaxRow syn row.render
          (incomingOC (rows ++ [row]) rows.length) row.openComment).1
        openComment := (updateSyntaxRow syn row.render
          (incomingOC (rows ++ [row]) rows.length) row.openComment).2 }] := by
  rw [updateSyntaxBuf_step syn bound (rows ++ [row]) rows.length row
    (get?_append_last rows row)]
  rw [if_neg (fun h => hb h.2)]
  exact set_append_last rows row _

/-- C10: inserting a printable character while the cursor row equals the
buffer's row count first appends one new empty row at the buffer end and
then inserts the character into it: the row count grows by exactly one,
the character lands at column 0 (the new row's sole byte), every existing
row is untouched, and the cursor column advances by one on the same
row. -/
theorem editor_insert_character_past_end (T : Nat) (syn : Option SynRule)
    (s : EState) (c : Byte) (hcy : s.cy = s.rows.length) :
    (editor_insert_character T syn s c).rows.length = s.rows.length + 1 ∧
    ((editor_insert_character T syn s c).rows.getD s.rows.length default).chars = [c] ∧
    (∀ j, j < s.rows.length →
      ((editor_insert_character T syn s c).rows.getD j default).chars
        = (s.rows.getD j default).chars) ∧
    (editor_insert_character T syn s c).cy = s.cy ∧
    (editor_insert_character T syn s c).cx = s.cx + 1 := by
  obtain ⟨rows, cx, cy⟩ := s
  simp only at hcy ⊢
  subst hcy
  obtain ⟨hl1, oc1, h1⟩ : ∃ hl oc, editor_insert_row T syn rows rows.length []
      = rows ++ [⟨[], renderChars T [], hl, oc⟩] := by
    refine ⟨(updateSyntaxRow syn (renderChars T [])
        (incomingOC (rows ++ [⟨[], renderChars T [], [], false⟩]) rows.length) false).1,
      (updateSyntaxRow syn (renderChars T [])
        (incomingOC (rows ++ [⟨[], renderChars T [], [], false⟩]) rows.length) false).2, ?_⟩
    unfold editor_insert_row
    rw [if_neg (by omega), List.take_length, List.drop_length]
    exact updateSyntaxBuf_last syn rows.length rows ⟨[], renderChars T [], [], false⟩
      (by omega)
  have hmain : editor_insert_character T syn ⟨rows, cx, rows.length⟩ c
      = ⟨rows ++ [⟨[c], renderChars T [c],
          (updateSyntaxRow syn (renderChars T [c])
            (incomingOC (rows ++ [⟨[c], renderChars T [c], hl1, oc1⟩]) rows.length) oc1).1,
          (updateSyntaxRow syn (renderChars T [c])
            (incomingOC (rows ++ [⟨[c], renderChars T [c], hl1, oc1⟩]) rows.length) oc1).2⟩],
        cx + 1, rows.length⟩ := by
    unfold editor_insert_character
    dsimp only
    rw [if_pos rfl, h1, get?_append_last]
    dsimp only
    rw [List.take_nil, List.drop_nil, List.nil_append]
    have h2 : (rows ++ [(⟨[], renderChars T [], hl1, oc1⟩ : Row)]).set rows.length
        ⟨[c], renderChars T [c], hl1, oc1⟩ = rows ++ [⟨[c], renderChars T [c], hl1, oc1⟩] :=
      set_append_last rows _ _
    rw [h2, List.length_append, List.length_singleton]
    have h3 : updateSyntaxBuf syn (rows.length + 1)
        (rows ++ [⟨[c], renderChars T [c], hl1, oc1⟩]) rows.length
        = rows ++ [⟨[c], renderChars T [c],
            (updateSyntaxRow syn (renderChars T [c])
              (incomingOC (rows ++ [⟨[c], renderChars T [c], hl1, oc1⟩]) rows.length) oc1).1,
            (updateSyntaxRow syn (renderChars T [c])
              (incomingOC (rows ++ [⟨[c], renderChars T [c], hl1, oc1⟩]) rows.length) oc1).2⟩] :=
      updateSyntaxBuf_last syn (rows.length + 1) rows ⟨[c], renderChars T [c], hl1, oc1⟩
        (by omega)
    rw [h3]
  rw [hmain]
  refine ⟨by simp, ?_, ?_, rfl, rfl⟩
  · rw [List.getD_eq_get?, get?_append_last]
    rfl
  · intro j hj
    rw [List.getD_eq_get?, List.getD_eq_get?, List.get?_append hj]

/-- Witness for insertion past the buffer end: a one-row buffer with the
cursor on line 1 (past the single row 0); inserting byte 97 appends a
second row holding exactly that byte. -/
theorem editor_insert_character_past_end_witness :
    (editor_insert_character 4 none ⟨[plainRow (bytes "x")], 0, 1⟩ 97).rows.length
        = [plainRow (bytes "x")].length + 1 ∧
    ((editor_insert_character 4 none ⟨[plainRow (bytes "x")], 0, 1⟩ 97).rows.getD
        [plainRow (bytes "x")].length default).chars = [97] ∧
    (∀ j, j < [plainRow (bytes "x")].length →
      ((editor_insert_character 4 none ⟨[plainRow (bytes "x")], 0, 1⟩ 97).rows.getD j
          default).chars = ([plainRow (bytes "x")].getD j default).chars) ∧
    (editor_insert_character 4 none ⟨[plainRow (bytes "x")], 0, 1⟩ 97).cy = 1 ∧
    (editor_insert_character 4 none ⟨[plainRow (bytes "x")], 0, 1⟩ 97).cx = 0 + 1 :=
  editor_insert_character_past_end 4 none ⟨[plainRow (bytes "x")], 0, 1⟩ 97 (by decide)

end Yate
